import Mathlib

/-!
Shallow embedding of PlaylistRX (src/PlaylistRX.py): the weight engine, the
Radio Generator and the Master Assembler, with the randomness of the script
modelled as explicit streams of rational draws (for `random.random()`) and
natural-number draws (for `random.randint` / `random.shuffle`).  Playlist
mutations are modelled as an explicit effect trace (clear / add), so that the
order of writes against the streaming service is visible in the embedding.
-/

namespace PlaylistRX

/-- The random state of a run: `floats` models the successive values of
`random.random()` (each in `[0,1)`), `ints` the successive integer draws used
for `random.randint` and `random.shuffle`; `fi` and `ii` are the positions of
the next unread draw on each stream. -/
structure Rng where
  floats : ℕ → ℚ
  ints : ℕ → ℕ
  fi : ℕ
  ii : ℕ

def nextFloat (r : Rng) : ℚ × Rng :=
  (r.floats r.fi, { r with fi := r.fi + 1 })

def nextInt (r : Rng) : ℕ × Rng :=
  (r.ints r.ii, { r with ii := r.ii + 1 })

/-- Overplay-tier penalty, from PlaylistRX.py lines 242-248 (radio) and
488-494 (master): the two code paths are textually identical. -/
def overplayPenalty (count : ℕ) (m : ℚ) : ℚ :=
  if count = 1 then 5 * m
  else if count = 2 then 7 * m
  else if 3 ≤ count then 9 * m
  else 0

/-- Top-rank-tier penalty, from lines 249-256 (radio) and 495-502 (master);
`none` models a track id absent from `topPositions`. -/
def rankPenalty (pos : Option ℕ) (m : ℚ) : ℚ :=
  match pos with
  | some p =>
    if p < 50 then 5 * m
    else if p < 100 then 4 * m
    else if p < 200 then 3 * m
    else 0
  | none => 0

/-- The track-level weight before any clamping: start at 10 and subtract the
two tier penalties (lines 241-256 and 487-502). -/
def trackWeightRaw (count : ℕ) (pos : Option ℕ) (m : ℚ) : ℚ :=
  10 - overplayPenalty count m - rankPenalty pos m

/-- The weight the Radio Generator compares against its random draw: the raw
weight clamped by `weight = max(0, min(10, weight))` (lines 257 and 292). -/
def radioWeight (count : ℕ) (pos : Option ℕ) (m : ℚ) : ℚ :=
  max 0 (min 10 (trackWeightRaw count pos m))

/-- One entry of `getTracksInfo`: track id, track name, primary artist name,
primary artist id (`none` when the service returned no artists). -/
structure InfoEntry where
  tid : String
  name : String
  artist : String
  artistId : Option String
deriving DecidableEq, Repr

/-- `artistCount` of lines 508-512: occurrences in the too-much playlist summed
over the tracks of `allInfo` whose primary artist is `aid` (membership in the
`tooMuchCounts` dict is count positivity, since the dict only holds keys it
incremented). -/
def artistTooMuchCount (allInfo : List InfoEntry) (tmc : String → ℕ) (aid : String) : ℕ :=
  allInfo.foldl (fun s e => if e.artistId = some aid ∧ 0 < tmc e.tid then s + tmc e.tid else s) 0

def infoHas (allInfo : List InfoEntry) (tid : String) : Bool :=
  allInfo.any (fun e => e.tid == tid)

def infoArtistId (allInfo : List InfoEntry) (tid : String) : Option String :=
  match allInfo.find? (fun e => e.tid == tid) with
  | some e => e.artistId
  | none => none

/-- Artist-level escalation of the Master Assembler (lines 504-519): enabled
by `artistIHearTooMuch`, applies only when the track is in `allInfo`, its
artist id is in `artistTooMuch`, and then subtracts `3*m` at artist count 6+
or `2*m` at 3..5. -/
def masterEscPenalty (enabled : Bool) (allInfo : List InfoEntry) (artistTooMuch : List String)
    (tmc : String → ℕ) (m : ℚ) (tid : String) : ℚ :=
  if enabled && infoHas allInfo tid then
    match infoArtistId allInfo tid with
    | some aid =>
      if aid ∈ artistTooMuch then
        let ac := artistTooMuchCount allInfo tmc aid
        if 6 ≤ ac then 3 * m else if 3 ≤ ac then 2 * m else 0
      else 0
    | none => 0
  else 0

/-- The weight the Master Assembler compares against its random draw
(lines 487-521): the raw track weight minus the escalation penalty, with no
clamping step anywhere on this path. -/
def masterWeight (count : ℕ) (pos : Option ℕ) (m : ℚ) (esc : ℚ) : ℚ :=
  trackWeightRaw count pos m - esc

/-- The Master Assembler's inclusion decision, line 521:
`included = random.random() < (weight / 10)`. -/
def masterIncluded (d w : ℚ) : Bool := d < w / 10

lemma overplayPenalty_nonneg (count : ℕ) {m : ℚ} (h : 0 ≤ m) :
    0 ≤ overplayPenalty count m := by
  unfold overplayPenalty
  split_ifs <;> linarith

lemma rankPenalty_nonneg (pos : Option ℕ) {m : ℚ} (h : 0 ≤ m) :
    0 ≤ rankPenalty pos m := by
  cases pos with
  | none => simp [rankPenalty]
  | some p =>
    simp only [rankPenalty]
    split_ifs <;> linarith

lemma masterEscPenalty_nonneg (enabled : Bool) (allInfo : List InfoEntry)
    (atm : List String) (tmc : String → ℕ) {m : ℚ} (tid : String) (h : 0 ≤ m) :
    0 ≤ masterEscPenalty enabled allInfo atm tmc m tid := by
  unfold masterEscPenalty
  split_ifs with hflag
  · cases infoArtistId allInfo tid with
    | none => exact le_refl 0
    | some aid =>
      dsimp only
      split_ifs <;> linarith
  · exact le_refl 0

lemma trackWeightRaw_le_ten (count : ℕ) (pos : Option ℕ) {m : ℚ} (h : 0 ≤ m) :
    trackWeightRaw count pos m ≤ 10 := by
  have h1 := overplayPenalty_nonneg count h
  have h2 := rankPenalty_nonneg pos h
  unfold trackWeightRaw
  linarith

/-- C1 (amended): the Radio Generator's compared weight is clamped to
`[0,10]` for every input; the Master Assembler never clamps, but with
modifier in `[0,5]` its compared weight (raw weight minus a nonnegative
escalation penalty) still never exceeds 10 — only the lower bound of the
claimed interval fails on the master path. -/
theorem radio_clamped_master_at_most_ten (count : ℕ) (pos : Option ℕ) (m : ℚ)
    (enabled : Bool) (allInfo : List InfoEntry) (atm : List String)
    (tmc : String → ℕ) (tid : String) (h0 : 0 ≤ m) (h5 : m ≤ 5) :
    (0 ≤ radioWeight count pos m ∧ radioWeight count pos m ≤ 10) ∧
      masterWeight count pos m (masterEscPenalty enabled allInfo atm tmc m tid) ≤ 10 := by
  refine ⟨⟨le_max_left _ _, ?_⟩, ?_⟩
  · exact max_le (by norm_num) (min_le_left _ _)
  · have he := masterEscPenalty_nonneg enabled allInfo atm tmc tid h0
    have hw := trackWeightRaw_le_ten count pos h0
    unfold masterWeight
    linarith

/-- Witness for C1's amended theorem at the concrete scenario of the spec
(overplay 3, rank 10, modifier 1). -/
theorem radio_clamped_master_at_most_ten_witness :
    (0 ≤ radioWeight 3 (some 10) 1 ∧ radioWeight 3 (some 10) 1 ≤ 10) ∧
      masterWeight 3 (some 10) 1
        (masterEscPenalty false [] [] (fun _ => 3) 1 "t1") ≤ 10 :=
  radio_clamped_master_at_most_ten 3 (some 10) 1 false [] [] (fun _ => 3) "t1"
    (by norm_num) (by norm_num)

/-- C1 counterexample: on the Master Assembler path the value compared
against the random draw is not clamped and falls below 0 (here `-4`), so it
does not lie in `[0,10]` as claimed. -/
theorem master_compared_weight_below_zero :
    masterWeight 3 (some 10) 1 (masterEscPenalty false [] [] (fun _ => 3) 1 "t2") < 0 := by
  norm_num [masterWeight, trackWeightRaw, overplayPenalty, rankPenalty,
    masterEscPenalty]

/-- C6: with modifier 1 and no rank entry, the tier table gives exactly
10 / 5 / 3 / 1 for overplay counts 0 / 1 / 2 / 3+, and the Radio and Master
computations agree (the master's escalation disabled, and the clamp of the
radio path being the identity on these values). -/
theorem weight_tier_table (c : ℕ) (allInfo : List InfoEntry) (atm : List String)
    (tmc : String → ℕ) (tid : String) :
    radioWeight c none 1 = (if c = 0 then 10 else if c = 1 then 5 else if c = 2 then 3 else 1) ∧
      masterWeight c none 1 (masterEscPenalty false allInfo atm tmc 1 tid) =
        radioWeight c none 1 := by
  have hesc : masterEscPenalty false allInfo atm tmc 1 tid = 0 := by
    simp [masterEscPenalty]
  rcases c with _ | _ | _ | n <;>
    simp [radioWeight, masterWeight, trackWeightRaw, overplayPenalty, rankPenalty, hesc] <;>
    norm_num

/-- C8 counterexample: the claimed clamp does not happen on the Master path —
the scenario track's compared weight is `-4`, not `0`. -/
theorem overplayed_top_track_weight_not_clamped_cex :
    masterWeight 3 (some 10) 1 (masterEscPenalty false [] [] (fun _ => 3) 1 "t3") = -4 ∧
      masterWeight 3 (some 10) 1 (masterEscPenalty false [] [] (fun _ => 3) 1 "t3") ≠ 0 := by
  norm_num [masterWeight, trackWeightRaw, overplayPenalty, rankPenalty,
    masterEscPenalty]

/-- C8 (amended): the scenario track (overplay 3, rank 10, modifier 1) gets
compared weight `-4` — unclamped — and is still deterministically excluded:
for every draw `d ≥ 0` (so for every value of `random.random()`), the
inclusion test of line 521 is false. -/
theorem overplayed_top_track_always_excluded :
    masterWeight 3 (some 10) 1 (masterEscPenalty false [] [] (fun _ => 3) 1 "t4") = -4 ∧
      ∀ d : ℚ, 0 ≤ d →
        masterIncluded d
          (masterWeight 3 (some 10) 1 (masterEscPenalty false [] [] (fun _ => 3) 1 "t4")) =
          false := by
  have hw : masterWeight 3 (some 10) 1 (masterEscPenalty false [] [] (fun _ => 3) 1 "t4") = -4 := by
    norm_num [masterWeight, trackWeightRaw, overplayPenalty, rankPenalty, masterEscPenalty]
  refine ⟨hw, ?_⟩
  intro d hd
  rw [hw]
  simp only [masterIncluded, decide_eq_false_iff_not, not_lt]
  linarith

/-! Shuffling.  `random.shuffle` is modelled as the uniform permutation it
produces: repeatedly draw an index from the integer stream (reduced modulo
the remaining length) and move that element to the front.  The fuel argument
is the list length, so the recursion is structural. -/

def shuffleAux {α : Type} : ℕ → List α → Rng → List α × Rng
  | 0, l, r => (l, r)
  | _ + 1, [], r => ([], r)
  | fuel + 1, a :: t, r =>
    let (j, r1) := nextInt r
    let idx := j % (a :: t).length
    let x := (a :: t).getD idx a
    let rest := (a :: t).eraseIdx idx
    let (out, r2) := shuffleAux fuel rest r1
    (x :: out, r2)

def shuffleList {α : Type} (l : List α) (r : Rng) : List α × Rng :=
  shuffleAux l.length l r

lemma getD_cons_eraseIdx_perm {α : Type} :
    ∀ (l : List α) (i : ℕ), i < l.length → ∀ d : α,
      (l.getD i d :: l.eraseIdx i).Perm l := by
  intro l
  induction l with
  | nil => intro i hi; simp at hi
  | cons a t ih =>
    intro i hi d
    cases i with
    | zero => simp
    | succ j =>
      have hj : j < t.length := by simpa using hi
      have hperm := ih j hj d
      have hstep : ((a :: t).getD (j + 1) d :: (a :: t).eraseIdx (j + 1))
          = t.getD j d :: a :: t.eraseIdx j := by simp
      rw [hstep]
      exact (List.Perm.swap a (t.getD j d) (t.eraseIdx j)).trans (hperm.cons a)

lemma shuffleAux_perm {α : Type} :
    ∀ (fuel : ℕ) (l : List α) (r : Rng), l.length ≤ fuel →
      ((shuffleAux fuel l r).1).Perm l := by
  intro fuel
  induction fuel with
  | zero =>
    intro l r h
    have : l = [] := List.eq_nil_of_length_eq_zero (Nat.le_zero.mp h)
    subst this; simp [shuffleAux]
  | succ n ih =>
    intro l r h
    cases l with
    | nil => simp [shuffleAux]
    | cons a t =>
      have hpos : 0 < (a :: t).length := by simp
      have hidx : (r.ints r.ii) % (a :: t).length < (a :: t).length :=
        Nat.mod_lt _ hpos
      have hlen : ((a :: t).eraseIdx ((r.ints r.ii) % (a :: t).length)).length ≤ n := by
        rw [List.length_eraseIdx_of_lt hidx]
        simpa using h
      have hrest := ih ((a :: t).eraseIdx ((r.ints r.ii) % (a :: t).length))
        { r with ii := r.ii + 1 } hlen
      have hstep := getD_cons_eraseIdx_perm (a :: t)
        ((r.ints r.ii) % (a :: t).length) hidx a
      simp only [shuffleAux, nextInt]
      exact ((hrest.cons _).trans hstep)

lemma shuffleList_perm {α : Type} (l : List α) (r : Rng) :
    ((shuffleList l r).1).Perm l :=
  shuffleAux_perm l.length l r (le_refl _)

/-- The history signals both loops read: the occurrence counts of the
"too much" playlist, the top-track positions, and the weight modifier. -/
structure WeightCtx where
  tooMuchCounts : String → ℕ
  topPositions : String → Option ℕ
  modifier : ℚ

/-- The clamped weight the Radio Generator computes for a track id
(lines 241-257 and 276-292: the same text at both places). -/
def weightOf (wc : WeightCtx) (tid : String) : ℚ :=
  radioWeight (wc.tooMuchCounts tid) (wc.topPositions tid) wc.modifier

/-- Top-song selection, lines 235-261: walk the artist's top tracks, stop at
`radioArtistSongs`, and when weight-based removal is on skip a track whose
draw is at least `weight/10`. -/
def selectTopSongs (rbw : Bool) (cap : ℕ) (wc : WeightCtx) :
    List String → List String → Rng → List String × Rng
  | [], acc, r => (acc, r)
  | tid :: rest, acc, r =>
    if cap ≤ acc.length then (acc, r)
    else if rbw then
      let (d, r1) := nextFloat r
      if weightOf wc tid / 10 ≤ d then selectTopSongs rbw cap wc rest acc r1
      else selectTopSongs rbw cap wc rest (acc ++ [tid]) r1
    else selectTopSongs rbw cap wc rest (acc ++ [tid]) r

/-- Replacement loop, lines 264-301: walk the (shuffled) 75%-popularity pool,
stop after `radioArtistRandomSongs` replacements, skip pool tracks already in
the top selection, apply the same weight test when enabled, and replace a
random index of `finals` when `finals` is non-empty. -/
def replaceLoop (rbw : Bool) (rcap : ℕ) (wc : WeightCtx) (tops : List String) :
    List String → List String → ℕ → Rng → List String × ℕ × Rng
  | [], finals, cnt, r => (finals, cnt, r)
  | tid :: rest, finals, cnt, r =>
    if rcap ≤ cnt then (finals, cnt, r)
    else if tid ∈ tops then replaceLoop rbw rcap wc tops rest finals cnt r
    else if rbw then
      let (d, r1) := nextFloat r
      if weightOf wc tid / 10 ≤ d then replaceLoop rbw rcap wc tops rest finals cnt r1
      else if finals.isEmpty then replaceLoop rbw rcap wc tops rest finals cnt r1
      else
        let (j, r2) := nextInt r1
        replaceLoop rbw rcap wc tops rest (finals.set (j % finals.length) tid) (cnt + 1) r2
    else if finals.isEmpty then replaceLoop rbw rcap wc tops rest finals cnt r
    else
      let (j, r2) := nextInt r
      replaceLoop rbw rcap wc tops rest (finals.set (j % finals.length) tid) (cnt + 1) r2

/-- How many pool tracks are eligible for replacement: not already among the
top songs, and passing the weight test against the float draws the loop would
hand them (`fi` is the position of the next unread float). -/
def eligibleCount (rbw : Bool) (wc : WeightCtx) (tops : List String) :
    List String → (ℕ → ℚ) → ℕ → ℕ
  | [], _, _ => 0
  | tid :: rest, fs, fi =>
    if tid ∈ tops then eligibleCount rbw wc tops rest fs fi
    else if rbw then
      if weightOf wc tid / 10 ≤ fs fi then eligibleCount rbw wc tops rest fs (fi + 1)
      else eligibleCount rbw wc tops rest fs (fi + 1) + 1
    else eligibleCount rbw wc tops rest fs fi + 1

lemma selectTopSongs_length_le (rbw : Bool) (cap : ℕ) (wc : WeightCtx) :
    ∀ (tids acc : List String) (r : Rng),
      (selectTopSongs rbw cap wc tids acc r).1.length ≤ max acc.length cap := by
  intro tids
  induction tids with
  | nil => intro acc r; simp [selectTopSongs]
  | cons tid rest ih =>
    intro acc r
    by_cases hcap : cap ≤ acc.length
    · simp [selectTopSongs, hcap]
    · have hlt : acc.length + 1 ≤ cap := Nat.lt_of_not_le hcap
      have hkeep : max (acc ++ [tid]).length cap = cap := by
        simp only [List.length_append, List.length_cons, List.length_nil]
        omega
      cases rbw with
      | false =>
        have := ih (acc ++ [tid]) r
        simp only [selectTopSongs, hcap, if_false, if_neg (by omega : ¬ cap ≤ acc.length)]
        simp only [Bool.false_eq_true, if_false]
        calc (selectTopSongs false cap wc rest (acc ++ [tid]) r).1.length
            ≤ max (acc ++ [tid]).length cap := ih (acc ++ [tid]) r
          _ = cap := hkeep
          _ ≤ max acc.length cap := le_max_right _ _
      | true =>
        simp only [selectTopSongs, if_neg (by omega : ¬ cap ≤ acc.length), if_true, nextFloat]
        by_cases hw : weightOf wc tid / 10 ≤ r.floats r.fi
        · simp only [hw, if_true]
          calc (selectTopSongs true cap wc rest acc _).1.length
              ≤ max acc.length cap := ih acc _
            _ ≤ max acc.length cap := le_refl _
        · simp only [hw, if_false]
          calc (selectTopSongs true cap wc rest (acc ++ [tid]) _).1.length
              ≤ max (acc ++ [tid]).length cap := ih (acc ++ [tid]) _
            _ = cap := hkeep
            _ ≤ max acc.length cap := le_max_right _ _

lemma replaceLoop_length (rbw : Bool) (rcap : ℕ) (wc : WeightCtx) (tops : List String) :
    ∀ (pool finals : List String) (cnt : ℕ) (r : Rng),
      (replaceLoop rbw rcap wc tops pool finals cnt r).1.length = finals.length := by
  intro pool
  induction pool with
  | nil => intro finals cnt r; simp [replaceLoop]
  | cons tid rest ih =>
    intro finals cnt r
    simp only [replaceLoop, nextFloat, nextInt]
    split_ifs <;> first
      | rfl
      | exact ih _ _ _
      | (rw [ih]; exact List.length_set _ _ _)

lemma replaceLoop_count_eq_min (rbw : Bool) (rcap : ℕ) (wc : WeightCtx) (tops : List String) :
    ∀ (pool finals : List String) (cnt : ℕ) (r : Rng),
      finals ≠ [] → cnt ≤ rcap →
      (replaceLoop rbw rcap wc tops pool finals cnt r).2.1
        = min rcap (cnt + eligibleCount rbw wc tops pool r.floats r.fi) := by
  intro pool
  induction pool with
  | nil =>
    intro finals cnt r _ hc
    simp only [replaceLoop, eligibleCount, Nat.add_zero]
    omega
  | cons tid rest ih =>
    intro finals cnt r hf hc
    have hemp : finals.isEmpty = false := by
      cases finals with
      | nil => exact absurd rfl hf
      | cons a t => rfl
    have hset : ∀ (j : ℕ), finals.set (j % finals.length) tid ≠ [] := by
      intro j hcontra
      have := congrArg List.length hcontra
      rw [List.length_set] at this
      exact hf (List.eq_nil_of_length_eq_zero this)
    by_cases hcap : rcap ≤ cnt
    · have hEq : cnt = rcap := le_antisymm hc hcap
      subst hEq
      simp only [replaceLoop, if_pos hcap]
      omega
    · have hcnt : cnt + 1 ≤ rcap := Nat.lt_of_not_le hcap
      by_cases hmem : tid ∈ tops
      · simp only [replaceLoop, eligibleCount, if_neg hcap, if_pos hmem]
        exact ih finals cnt r hf hc
      · cases rbw with
        | true =>
          by_cases hw : weightOf wc tid / 10 ≤ r.floats r.fi
          · simp [replaceLoop, eligibleCount, nextFloat, hcap, hmem, hw]
            have hrec := ih finals cnt { r with fi := r.fi + 1 } hf hc
            dsimp only at hrec ⊢
            omega
          · simp [replaceLoop, eligibleCount, nextFloat, nextInt, hcap, hmem, hw, hemp]
            have hrec := ih (finals.set (r.ints r.ii % finals.length) tid) (cnt + 1)
              { r with fi := r.fi + 1, ii := r.ii + 1 } (hset _) hcnt
            dsimp only at hrec ⊢
            omega
        | false =>
          simp [replaceLoop, eligibleCount, nextInt, hcap, hmem, hemp]
          have hrec := ih (finals.set (r.ints r.ii % finals.length) tid) (cnt + 1)
            { r with ii := r.ii + 1 } (hset _) hcnt
          dsimp only at hrec ⊢
          omega

lemma replaceLoop_empty_tops (rbw : Bool) (rcap : ℕ) (wc : WeightCtx) :
    ∀ (pool : List String) (cnt : ℕ) (r : Rng),
      (replaceLoop rbw rcap wc [] pool [] cnt r).1 = [] ∧
        (replaceLoop rbw rcap wc [] pool [] cnt r).2.1 = cnt := by
  intro pool
  induction pool with
  | nil => intro cnt r; simp [replaceLoop]
  | cons tid rest ih =>
    intro cnt r
    by_cases hcap : rcap ≤ cnt
    · simp [replaceLoop, hcap]
    · cases rbw with
      | false =>
        simp only [replaceLoop, if_neg hcap, List.not_mem_nil, if_false,
          Bool.false_eq_true, List.isEmpty_nil, if_true]
        exact ih cnt r
      | true =>
        simp only [replaceLoop, if_neg hcap, List.not_mem_nil, if_false, if_true,
          nextFloat, List.isEmpty_nil]
        by_cases hw : weightOf wc tid / 10 ≤ r.floats r.fi
        · simp only [hw, if_true]; exact ih cnt _
        · simp only [hw, if_false, if_true]; exact ih cnt _

/-- C4 (amended): per artist, (a) the top-song selection never exceeds
`radioArtistSongs`; (b) when that selection is non-empty, the replacement
step performs exactly `min radioArtistRandomSongs e` replacements, where `e`
counts the pool tracks that are not already selected and pass the weight
test; (c) replacement never changes the size: the per-artist output length
equals the top-selection length.  (Without the non-emptiness of (b) the
exact-min count fails: see the counterexample.) -/
theorem radio_slot_invariants (rbw : Bool) (cap rcap : ℕ) (wc : WeightCtx)
    (tids pool tops : List String) (r r2 : Rng) (htops : tops ≠ []) :
    (selectTopSongs rbw cap wc tids [] r).1.length ≤ cap ∧
      (replaceLoop rbw rcap wc tops pool tops 0 r2).2.1
        = min rcap (eligibleCount rbw wc tops pool r2.floats r2.fi) ∧
      (replaceLoop rbw rcap wc tops pool tops 0 r2).1.length = tops.length := by
  refine ⟨?_, ?_, replaceLoop_length rbw rcap wc tops pool tops 0 r2⟩
  · simpa using selectTopSongs_length_le rbw cap wc tids [] r
  · simpa using replaceLoop_count_eq_min rbw rcap wc tops pool tops 0 r2 htops
      (Nat.zero_le _)

/-- Witness for C4's amended theorem: a non-empty one-track top selection and
a two-track pool with the weight test off — both pool tracks are eligible
and exactly `min 5 2 = 2` replacements happen. -/
theorem radio_slot_invariants_witness :
    (selectTopSongs false 10 ⟨fun _ => 0, fun _ => none, 1⟩ ["a", "b"] [] ⟨fun _ => 0, fun _ => 0, 0, 0⟩).1.length ≤ 10 ∧
      (replaceLoop false 5 ⟨fun _ => 0, fun _ => none, 1⟩ ["a"] ["p", "q"] ["a"] 0 ⟨fun _ => 0, fun _ => 0, 0, 0⟩).2.1
        = min 5 (eligibleCount false ⟨fun _ => 0, fun _ => none, 1⟩ ["a"] ["p", "q"] (fun _ => 0) 0) ∧
      (replaceLoop false 5 ⟨fun _ => 0, fun _ => none, 1⟩ ["a"] ["p", "q"] ["a"] 0 ⟨fun _ => 0, fun _ => 0, 0, 0⟩).1.length = (["a"] : List String).length :=
  radio_slot_invariants false 10 5 ⟨fun _ => 0, fun _ => none, 1⟩ ["a", "b"] ["p", "q"] ["a"]
    ⟨fun _ => 0, fun _ => 0, 0, 0⟩ ⟨fun _ => 0, fun _ => 0, 0, 0⟩ (by decide)

/-- C4 counterexample: with an empty top-track selection the guarded loop
performs zero replacements even though one pool track is eligible, so the
replacement count is not `min radioArtistRandomSongs e` (here `0 ≠ min 1 1`). -/
theorem replacement_count_not_min_cex :
    (replaceLoop false 1 ⟨fun _ => 0, fun _ => none, 1⟩ [] ["p"] [] 0 ⟨fun _ => 0, fun _ => 0, 0, 0⟩).2.1
      ≠ min 1 (eligibleCount false ⟨fun _ => 0, fun _ => none, 1⟩ [] ["p"] (fun _ => 0) 0) := by
  decide

/-- C10: when the top-track selection of an artist is empty, every iteration
of the replacement loop takes the empty-`finalSongs` branch — the random
index draw is never reached — so zero replacements happen and the artist
contributes no tracks, however many pool tracks pass the weight test. -/
theorem empty_top_selection_contributes_nothing (rbw : Bool) (rcap : ℕ) (wc : WeightCtx)
    (pool : List String) (r : Rng) :
    (replaceLoop rbw rcap wc [] pool [] 0 r).1 = [] ∧
      (replaceLoop rbw rcap wc [] pool [] 0 r).2.1 = 0 :=
  replaceLoop_empty_tops rbw rcap wc pool 0 r

/-! Playlist mutations as an explicit trace. -/

/-- A playlist mutation performed through the service connection:
`clearPlaylist` or `addTracksToPlaylist`. -/
inductive Effect where
  | clear (pid : String)
  | add (pid : String) (tids : List String)
deriving DecidableEq, Repr

def masterId : String := "[RX] Master"
def radioId : String := "[RX] Radio"
def tooMuchId : String := "[RX] Songs I Hear Too Much"

/-- Apply one mutation to the playlist state (playlist id to its ordered
contents): clear replaces with `[]`, add appends. -/
def applyEffect (st : String → List String) : Effect → (String → List String)
  | .clear pid => fun q => if q == pid then [] else st q
  | .add pid tids => fun q => if q == pid then st q ++ tids else st q

def applyEffects (effs : List Effect) (st : String → List String) : String → List String :=
  effs.foldl applyEffect st

/-- Split the deck, lines 534-553: take the first quarter of the current
Master, shuffle the selected tracks, split them at the midpoint, shuffle the
second half together with the quarter, and put the first half in front. -/
def splitTheDeckStep (sel currentMaster : List String) (r : Rng) : List String × Rng :=
  let splitPoint := currentMaster.length / 4
  let topOfMaster := currentMaster.take splitPoint
  let p1 := shuffleList sel r
  let selSh := p1.1
  let bottomHalfPoint := selSh.length / 2
  let bottomHalfOfMaster := selSh.drop bottomHalfPoint
  let topHalfOfSelected := selSh.take bottomHalfPoint
  let p2 := shuffleList (bottomHalfOfMaster ++ topOfMaster) p1.2
  (topHalfOfSelected ++ p2.1, p2.2)

/-- The Master write step, lines 529-571: nothing at all happens when the
selected list is empty; otherwise split-the-deck (or a plain shuffle) fixes
the final order and the Master is cleared then rewritten. -/
def masterWrite (split : Bool) (mid : String) (sel currentMaster : List String)
    (r : Rng) : List Effect × Rng :=
  if sel.isEmpty then ([], r)
  else
    let p :=
      if split then
        if currentMaster.isEmpty then shuffleList sel r
        else splitTheDeckStep sel currentMaster r
      else shuffleList sel r
    ([Effect.clear mid, Effect.add mid p.1], p.2)

/-- C2 (amended): with an empty selected list the Master Assembler performs
no mutation at all — in particular it never calls `clearPlaylist`, so the
Master keeps its previous contents rather than being emptied. -/
theorem empty_selection_writes_nothing (split : Bool) (mid : String)
    (currentMaster : List String) (r : Rng) :
    (masterWrite split mid [] currentMaster r).1 = [] ∧
      Effect.clear mid ∉ (masterWrite split mid [] currentMaster r).1 := by
  constructor
  · rfl
  · intro hmem
    simp [masterWrite] at hmem

/-- C5: when split-the-deck is on, the selected set non-empty and the current
Master non-empty, the write is a clear followed by one add whose list is
`firstHalf ++ combined`: `firstHalf` is the first half (at the floor
midpoint) of a shuffle `selSh` of the selected set, `combined` a permutation
of `secondHalf ++ Q` with `Q` the first quarter of the current Master; the
written list is a permutation of `selected ++ Q` and its length is
`|firstHalf| + |secondHalf| + |Q|` — the split drops and duplicates
nothing. -/
theorem split_the_deck_partition_perm (sel currentMaster : List String) (r : Rng)
    (hsel : sel ≠ []) (hcm : currentMaster ≠ []) :
    ∃ (selSh comb : List String) (rEnd : Rng),
      selSh.Perm sel ∧
      comb.Perm (selSh.drop (selSh.length / 2) ++
        currentMaster.take (currentMaster.length / 4)) ∧
      masterWrite true masterId sel currentMaster r =
        ([Effect.clear masterId,
          Effect.add masterId (selSh.take (selSh.length / 2) ++ comb)], rEnd) ∧
      (selSh.take (selSh.length / 2) ++ comb).length =
        (selSh.take (selSh.length / 2)).length + (selSh.drop (selSh.length / 2)).length +
          (currentMaster.take (currentMaster.length / 4)).length ∧
      (selSh.take (selSh.length / 2) ++ comb).Perm
        (sel ++ currentMaster.take (currentMaster.length / 4)) := by
  have hselE : sel.isEmpty = false := by
    cases sel with
    | nil => exact absurd rfl hsel
    | cons a t => rfl
  have hcmE : currentMaster.isEmpty = false := by
    cases currentMaster with
    | nil => exact absurd rfl hcm
    | cons a t => rfl
  refine ⟨(shuffleList sel r).1,
    (shuffleList ((shuffleList sel r).1.drop ((shuffleList sel r).1.length / 2) ++
      currentMaster.take (currentMaster.length / 4)) (shuffleList sel r).2).1,
    (shuffleList ((shuffleList sel r).1.drop ((shuffleList sel r).1.length / 2) ++
      currentMaster.take (currentMaster.length / 4)) (shuffleList sel r).2).2,
    shuffleList_perm sel r, shuffleList_perm _ _, ?_, ?_, ?_⟩
  · simp only [masterWrite, hselE, Bool.false_eq_true, if_false, if_true, hcmE,
      splitTheDeckStep]
  · have hcomb := shuffleList_perm
      ((shuffleList sel r).1.drop ((shuffleList sel r).1.length / 2) ++
        currentMaster.take (currentMaster.length / 4)) (shuffleList sel r).2
    rw [List.length_append, hcomb.length_eq, List.length_append]
    ring
  · have hsh := shuffleList_perm sel r
    have hcomb := shuffleList_perm
      ((shuffleList sel r).1.drop ((shuffleList sel r).1.length / 2) ++
        currentMaster.take (currentMaster.length / 4)) (shuffleList sel r).2
    refine (List.Perm.append_left _ hcomb).trans ?_
    rw [← List.append_assoc, List.take_append_drop]
    exact hsh.append (List.Perm.refl _)

/-- Witness for C5 at a concrete selected set and Master. -/
theorem split_the_deck_partition_perm_witness :
    ∃ (selSh comb : List String) (rEnd : Rng),
      selSh.Perm ["a", "b"] ∧
      comb.Perm (selSh.drop (selSh.length / 2) ++
        (["m1", "m2", "m3", "m4"] : List String).take
          ((["m1", "m2", "m3", "m4"] : List String).length / 4)) ∧
      masterWrite true masterId ["a", "b"] ["m1", "m2", "m3", "m4"]
          ⟨fun _ => 0, fun _ => 0, 0, 0⟩ =
        ([Effect.clear masterId,
          Effect.add masterId (selSh.take (selSh.length / 2) ++ comb)], rEnd) ∧
      (selSh.take (selSh.length / 2) ++ comb).length =
        (selSh.take (selSh.length / 2)).length + (selSh.drop (selSh.length / 2)).length +
          ((["m1", "m2", "m3", "m4"] : List String).take
            ((["m1", "m2", "m3", "m4"] : List String).length / 4)).length ∧
      (selSh.take (selSh.length / 2) ++ comb).Perm
        (["a", "b"] ++ (["m1", "m2", "m3", "m4"] : List String).take
          ((["m1", "m2", "m3", "m4"] : List String).length / 4)) :=
  split_the_deck_partition_perm ["a", "b"] ["m1", "m2", "m3", "m4"]
    ⟨fun _ => 0, fun _ => 0, 0, 0⟩ (by decide) (by decide)

/-! Blacklist matching.  Lines 184-189 (radio) and 476-481 (master) run the
same loop: an artist is blacklisted when some entry, lowercased, occurs as a
substring of the lowercased artist name (Python `in` on strings). -/

def lowerChars (s : String) : List Char := s.toList.map Char.toLower

def startsWithChars : List Char → List Char → Bool
  | [], _ => true
  | _ :: _, [] => false
  | a :: n, b :: h => a == b && startsWithChars n h

/-- Python substring containment `needle in hay` over characters. -/
def containsSub (needle : List Char) : List Char → Bool
  | [] => needle.isEmpty
  | b :: t => startsWithChars needle (b :: t) || containsSub needle t

/-- The blacklist check shared by both components: a no-op when the
`artistBlacklist` flag is off, else a substring test per enabled entry. -/
def checkBlacklisted (flag : Bool) (entries : List String) (artist : String) : Bool :=
  flag && entries.any (fun b => containsSub (lowerChars b) (lowerChars artist))

lemma startsWithChars_iff :
    ∀ (n h : List Char), startsWithChars n h = true ↔ ∃ q, h = n ++ q := by
  intro n
  induction n with
  | nil => intro h; simp [startsWithChars]
  | cons a n ih =>
    intro h
    cases h with
    | nil =>
      simp only [startsWithChars, List.cons_append]
      constructor
      · intro hcontra; cases hcontra
      · rintro ⟨q, hq⟩; cases hq
    | cons b t =>
      simp only [startsWithChars, Bool.and_eq_true, beq_iff_eq, ih, List.cons_append]
      constructor
      · rintro ⟨rfl, q, rfl⟩; exact ⟨q, rfl⟩
      · rintro ⟨q, hq⟩
        injection hq with h1 h2
        exact ⟨h1.symm, q, h2⟩

lemma containsSub_iff :
    ∀ (h n : List Char), containsSub n h = true ↔ ∃ p q, h = p ++ n ++ q := by
  intro h
  induction h with
  | nil =>
    intro n
    simp only [containsSub, List.isEmpty_iff]
    constructor
    · rintro rfl; exact ⟨[], [], rfl⟩
    · rintro ⟨p, q, hq⟩
      rcases List.append_eq_nil.mp hq.symm with ⟨h1, h2⟩
      rcases List.append_eq_nil.mp h1 with ⟨-, h3⟩
      exact h3
  | cons b t ih =>
    intro n
    simp only [containsSub, Bool.or_eq_true, startsWithChars_iff, ih]
    constructor
    · rintro (⟨q, hq⟩ | ⟨p, q, hq⟩)
      · exact ⟨[], q, by simpa using hq⟩
      · exact ⟨b :: p, q, by simp [hq]⟩
    · rintro ⟨p, q, hq⟩
      cases p with
      | nil => exact Or.inl ⟨q, by simpa using hq⟩
      | cons c p =>
        right
        injection hq with h1 h2
        exact ⟨p, q, h2⟩

/-- C9: in both components an artist is treated as blacklisted iff the flag
is on and some blacklist entry, lowercased, is a substring of the lowercased
artist name; the check is pure substring matching, never exact or id-based —
in particular entry "Be" matches artist "Beyoncé" — and with the flag off
nothing is ever blacklisted. -/
theorem blacklist_case_insensitive_substring (entries : List String) (artist : String) :
    (checkBlacklisted true entries artist = true ↔
      ∃ b ∈ entries, ∃ p q, lowerChars artist = p ++ lowerChars b ++ q) ∧
      (∀ (es : List String) (a : String), checkBlacklisted false es a = false) ∧
      checkBlacklisted true ["Be"] "Beyoncé" = true := by
  refine ⟨?_, ?_, by decide⟩
  · simp only [checkBlacklisted, Bool.true_and, List.any_eq_true, containsSub_iff]
  · intro es a
    simp [checkBlacklisted]

/-! The catalog and the two components end to end. -/

/-- The configuration surface the core reads (config.json merged with CLI
overrides); `playlistsToInclude` is `none` when the key is absent, which is
the `config["playlistsToInclude"]` KeyError case of line 461. -/
structure Config where
  numArtists : ℕ
  radioArtistSongs : ℕ
  radioArtistRandomSongs : ℕ
  removeByWeight : Bool
  includeInMaster : Bool
  includeDiscover : Bool
  weightModifier : ℚ
  playlistsToInclude : Option (List String)
  artistIHearTooMuch : Bool
  artistBlacklist : Bool
  splitTheDeck : Bool

/-- An album track as the radio generator sees it: id, popularity
(`track.get("popularity", 0)`), and the id of the first listed artist. -/
structure AlbumTrack where
  tid : String
  popularity : ℤ
  firstArtistId : String
deriving DecidableEq, Repr

/-- The read-only data the Catalog Service returns during one run. -/
structure Catalog where
  discoverId : Option String
  playlistIdByName : String → Option String
  playlistTracks : String → List String
  likedTracks : List String
  topTracks : List String
  tracksInfo : String → Option (String × String × Option String)
  artistTopTracks : String → List String
  artistAlbumTracks : String → List AlbumTrack

/-- First-occurrence deduplication, as a Python dict keyed by the values
collapses repeats while keeping first positions. -/
def dedupFirstAux (seen : List String) : List String → List String
  | [] => []
  | a :: t => if a ∈ seen then dedupFirstAux seen t else a :: dedupFirstAux (a :: seen) t

def dedupFirst (l : List String) : List String := dedupFirstAux [] l

/-- `uniqueTracks` of lines 222-226: keep the first album track per id. -/
def dedupAlbumAux (seen : List String) : List AlbumTrack → List AlbumTrack
  | [] => []
  | a :: t => if a.tid ∈ seen then dedupAlbumAux seen t else a :: dedupAlbumAux (a.tid :: seen) t

/-- Stable insertion keeping descending popularity, matching the stable
`sorted(..., key=popularity, reverse=True)` of line 229. -/
def insertByPop (x : AlbumTrack) : List AlbumTrack → List AlbumTrack
  | [] => [x]
  | y :: t => if x.popularity < y.popularity then y :: insertByPop x t else x :: y :: t

def sortByPop : List AlbumTrack → List AlbumTrack
  | [] => []
  | a :: t => insertByPop a (sortByPop t)

/-- `getTracksInfo` over a list of ids: a dict keyed by id in first-occurrence
order, entries missing from the service skipped. -/
def buildInfo (cat : Catalog) (tids : List String) : List InfoEntry :=
  (dedupFirst tids).filterMap fun tid =>
    match cat.tracksInfo tid with
    | some (n, a, aid) => some ⟨tid, n, a, aid⟩
    | none => none

/-- The artist ids of the current Master grouped at lines 169-176 (entries
without an artist id are skipped); only the keys and names of `artistMap`
are used downstream. -/
def artistIdsOf (info : List InfoEntry) : List String :=
  dedupFirst (info.filterMap (·.artistId))

/-- `artistNames[artistId]`, where a later entry overwrote an earlier one. -/
def artistNameOf (info : List InfoEntry) (aid : String) : String :=
  match info.reverse.find? (fun e => e.artistId == some aid) with
  | some e => e.artist
  | none => ""

/-- Per-artist radio processing, lines 181-304: blacklist skip, top-track
selection, the 75%-popularity pool (primary-artist filter, id dedup, stable
popularity sort, `int(len*0.75)` cut), pool shuffle, and the guarded
replacement loop. -/
def processArtist (cfg : Config) (blNames : List String) (wc : WeightCtx)
    (cat : Catalog) (info : List InfoEntry) (aid : String) (r : Rng) :
    List String × Rng :=
  if checkBlacklisted cfg.artistBlacklist blNames (artistNameOf info aid) then ([], r)
  else
    let pool0 := (cat.artistAlbumTracks aid).filter (fun t => t.firstArtistId == aid)
    let pool1 := dedupAlbumAux [] pool0
    let pool2 := sortByPop pool1
    let pool3 := pool2.take (3 * pool2.length / 4)
    let p1 := selectTopSongs cfg.removeByWeight cfg.radioArtistSongs wc
      (cat.artistTopTracks aid) [] r
    let p2 := shuffleList pool3 p1.2
    let p3 := replaceLoop cfg.removeByWeight cfg.radioArtistRandomSongs wc p1.1
      (p2.1.map (·.tid)) p1.1 0 p2.2
    (p3.1, p3.2.2)

/-- Lines 316-322: when `includeRadioInMaster` is on, append into the Master
the radio tracks not already in it (a list filter against the membership
set), shuffled, and only when that list is non-empty. -/
def includeInMasterStep (flag : Bool) (mid : String)
    (masterTrackIds radioTracks : List String) (r : Rng) : List Effect × Rng :=
  if flag then
    let toAdd := radioTracks.filter (fun tid => !(masterTrackIds.contains tid))
    if toAdd.isEmpty then ([], r)
    else
      let p := shuffleList toAdd r
      ([Effect.add mid p.1], p.2)
  else ([], r)

/-- The Radio Generator, lines 155-322: optional Discover Weekly seed, artist
sampling from the current Master (`random.sample` modelled as a shuffle
followed by `take` of `min numArtists |artists|`), per-artist processing,
radio overwrite (clear, then add when non-empty), and the optional append
into the Master. Returns (effect trace, final radio list, rng). -/
def generateRadio (cfg : Config) (blNames : List String) (wc : WeightCtx)
    (cat : Catalog) (mid : String) (r : Rng) : List Effect × List String × Rng :=
  let discover :=
    if cfg.includeDiscover then
      match cat.discoverId with
      | some did => cat.playlistTracks did
      | none => []
    else []
  let masterTrackIds := cat.playlistTracks mid
  let info := buildInfo cat masterTrackIds
  let aids := artistIdsOf info
  let p1 := shuffleList aids r
  let chosen := p1.1.take (min cfg.numArtists aids.length)
  let p2 := chosen.foldl (fun acc aid =>
      let q := processArtist cfg blNames wc cat info aid acc.2
      (acc.1 ++ q.1, q.2)) (discover, p1.2)
  let radioTracks := p2.1
  let p3 := if radioTracks.isEmpty then (radioTracks, p2.2) else shuffleList radioTracks p2.2
  let writeEffects :=
    if radioTracks.isEmpty then [Effect.clear radioId]
    else [Effect.clear radioId, Effect.add radioId p3.1]
  let p4 := includeInMasterStep cfg.includeInMaster mid masterTrackIds p3.1 p3.2
  (writeEffects ++ p4.1, p3.1, p4.2)

/-- Source resolution of lines 460-467: "Liked Songs" means the library,
other names resolve by exact playlist-name lookup, unresolved names are
silently skipped. -/
def resolveRawIds (cat : Catalog) (names : List String) : List String :=
  names.foldl (fun acc name =>
    if name == "Liked Songs" then acc ++ cat.likedTracks
    else match cat.playlistIdByName name with
      | some pid => acc ++ cat.playlistTracks pid
      | none => acc) []

def displayKey (e : InfoEntry) : String := e.name ++ " - " ++ e.artist

/-- Python dict assignment: update in place when the key exists (keeping its
position), else append. -/
def insertUpd (k : String) (v : InfoEntry) : List (String × InfoEntry) → List (String × InfoEntry)
  | [] => [(k, v)]
  | (q, w) :: t => if q == k then (k, v) :: t else (q, w) :: insertUpd k v t

/-- `trackMap` of line 470: keyed by the "name - artist" display string. -/
def buildTrackMap (info : List InfoEntry) : List (String × InfoEntry) :=
  info.foldl (fun mp e => insertUpd (displayKey e) e mp) []

/-- The per-track selection loop of the Master Assembler, lines 474-526:
blacklist skip, master weight (with escalation), one float draw, include when
`draw < weight/10`. -/
def masterSelect (cfg : Config) (blNames : List String) (wc : WeightCtx)
    (allInfo : List InfoEntry) (atm : List String) :
    List (String × InfoEntry) → Rng → List String × Rng
  | [], r => ([], r)
  | (_, e) :: rest, r =>
    if checkBlacklisted cfg.artistBlacklist blNames e.artist then
      masterSelect cfg blNames wc allInfo atm rest r
    else
      let w := masterWeight (wc.tooMuchCounts e.tid) (wc.topPositions e.tid) wc.modifier
        (masterEscPenalty cfg.artistIHearTooMuch allInfo atm wc.tooMuchCounts wc.modifier e.tid)
      let p := nextFloat r
      let q := masterSelect cfg blNames wc allInfo atm rest p.2
      (if masterIncluded p.1 w then e.tid :: q.1 else q.1, q.2)

/-- `topPositions` of line 405: a dict comprehension, so a repeated id keeps
its last index. -/
def posOf (l : List String) (tid : String) : Option ℕ :=
  l.enum.foldl (fun acc p => if p.2 == tid then some p.1 else acc) none

def bumpCount (k : String) (n : ℕ) : List (String × ℕ) → List (String × ℕ)
  | [] => [(k, n)]
  | (q, c) :: t => if q == k then (q, c + n) :: t else (q, c) :: bumpCount k n t

def lookupCount (mp : List (String × ℕ)) (k : String) : ℕ :=
  match mp.find? (fun p => p.1 == k) with
  | some p => p.2
  | none => 0

/-- Lines 412-453: the occurrence-weighted per-artist-name counts over the
too-much playlist, the 3+ artist-id set for weight escalation, and the 10+
name set for blacklisting. -/
def buildSignals (cfg : Config) (cat : Catalog) (tooMuchList : List String) :
    List String × List String :=
  if cfg.artistIHearTooMuch || cfg.artistBlacklist then
    if tooMuchList.isEmpty then ([], [])
    else
      let occ := fun tid => tooMuchList.count tid
      let info := buildInfo cat tooMuchList
      let nameCounts := info.foldl (fun mp e =>
        if e.artist ≠ "" then bumpCount e.artist (occ e.tid) mp else mp) []
      let atm :=
        if cfg.artistIHearTooMuch then
          dedupFirst (info.filterMap (fun e =>
            match e.artistId with
            | some aid => if 3 ≤ lookupCount nameCounts e.artist then some aid else none
            | none => none))
        else []
      let bl :=
        if cfg.artistBlacklist then (nameCounts.filter (fun p => 10 ≤ p.2)).map (·.1)
        else []
      (atm, bl)
  else ([], [])

/-- The whole `main` of lines 351-571 after setup: signals, the Radio
Generator (which always runs first and mutates playlists), then the
`config["playlistsToInclude"]` access — a KeyError when the key is missing —
and otherwise the Master Assembler.  Returns the effect trace together with
the uncaught error, if any. -/
def mainRun (cfg : Config) (cat : Catalog) (r : Rng) : List Effect × Option String :=
  let topPositions := posOf cat.topTracks
  let tooMuchList := cat.playlistTracks tooMuchId
  let tooMuchCounts := fun tid => tooMuchList.count tid
  let wc : WeightCtx := ⟨tooMuchCounts, topPositions, cfg.weightModifier⟩
  let sig := buildSignals cfg cat tooMuchList
  let rad := generateRadio cfg sig.2 wc cat masterId r
  match cfg.playlistsToInclude with
  | none => (rad.1, some "KeyError: playlistsToInclude")
  | some names =>
    let rawIds := resolveRawIds cat names
    let allInfo := buildInfo cat rawIds
    let trackMap := buildTrackMap allInfo
    let selp := masterSelect cfg sig.2 wc allInfo sig.1 trackMap rad.2.2
    let currentMaster := applyEffects rad.1 cat.playlistTracks masterId
    let wr := masterWrite cfg.splitTheDeck masterId selp.1 currentMaster selp.2
    (rad.1 ++ wr.1, none)

lemma generateRadio_clears_radio (cfg : Config) (blNames : List String) (wc : WeightCtx)
    (cat : Catalog) (mid : String) (r : Rng) :
    Effect.clear radioId ∈ (generateRadio cfg blNames wc cat mid r).1 := by
  simp only [generateRadio]
  split_ifs <;> simp

/-- C7 (amended): with `includeRadioInMaster` on, the step appends into the
Master exactly the list of radio tracks not already in the Master —
preserving multiplicity, so a track the generator produced twice is appended
twice — shuffled, as a single add (or nothing when that list is empty), and
it emits no clear and no effect on any other playlist: the Master's existing
contents are never removed or reordered. -/
lemma includeInMasterStep_true_eq (mid : String) (master radio : List String) (r : Rng) :
    includeInMasterStep true mid master radio r =
      (if (radio.filter (fun tid => !(master.contains tid))).isEmpty then ([], r)
       else
         ([Effect.add mid (shuffleList (radio.filter (fun tid => !(master.contains tid))) r).1],
           (shuffleList (radio.filter (fun tid => !(master.contains tid))) r).2)) := rfl

theorem include_in_master_appends_filtered (mid : String) (master radio : List String)
    (r : Rng) :
    ((radio.filter (fun tid => !(master.contains tid))).isEmpty = true →
        (includeInMasterStep true mid master radio r).1 = []) ∧
      ((radio.filter (fun tid => !(master.contains tid))).isEmpty = false →
        ∃ (l : List String) (rEnd : Rng),
          includeInMasterStep true mid master radio r = ([Effect.add mid l], rEnd) ∧
            l.Perm (radio.filter (fun tid => !(master.contains tid)))) ∧
      ∀ e ∈ (includeInMasterStep true mid master radio r).1, ∃ l, e = Effect.add mid l := by
  refine ⟨?_, ?_, ?_⟩
  · intro h
    rw [includeInMasterStep_true_eq, if_pos h]
  · intro h
    refine ⟨(shuffleList (radio.filter (fun tid => !(master.contains tid))) r).1,
      (shuffleList (radio.filter (fun tid => !(master.contains tid))) r).2,
      ?_, shuffleList_perm _ _⟩
    rw [includeInMasterStep_true_eq, if_neg (by rw [h]; exact Bool.false_ne_true)]
  · intro e he
    by_cases h : (radio.filter (fun tid => !(master.contains tid))).isEmpty = true
    · rw [includeInMasterStep_true_eq, if_pos h] at he
      simp at he
    · rw [includeInMasterStep_true_eq, if_neg h] at he
      simp only [List.mem_singleton] at he
      exact ⟨_, he⟩

/-- C7 counterexample: a run in which Discover Weekly and a sampled artist
both produce track "x" (the Master holding only "y" by that artist); the
generated radio list is `["x", "x"]` and the Master append contains "x"
twice — not "each such track id once" as claimed. -/
theorem include_in_master_duplicate_cex :
    (generateRadio ⟨5, 10, 5, false, true, true, 1, some [], false, false, false⟩ []
        ⟨fun _ => 0, fun _ => none, 1⟩
        ⟨some "DW", fun _ => none,
         fun pid => if pid == "DW" then ["x"] else if pid == masterId then ["y"] else [],
         [], [],
         fun tid => if tid == "y" then some ("Y", "A", some "A") else none,
         fun aid => if aid == "A" then ["x"] else [],
         fun _ => []⟩
        masterId ⟨fun _ => 0, fun _ => 0, 0, 0⟩).1 =
      [Effect.clear radioId, Effect.add radioId ["x", "x"],
        Effect.add masterId ["x", "x"]] := by
  decide

/-- C3 (amended): a missing `playlistsToInclude` key is an uncaught KeyError,
but it is raised only when the Master Assembler starts reading the
configuration — after the Radio Generator has already run and cleared the
Radio playlist, not at startup before any mutation. -/
theorem missing_playlists_key_fails_after_radio (cfg : Config) (cat : Catalog) (r : Rng)
    (h : cfg.playlistsToInclude = none) :
    (mainRun cfg cat r).2 = some "KeyError: playlistsToInclude" ∧
      Effect.clear radioId ∈ (mainRun cfg cat r).1 := by
  have h2 : (mainRun cfg cat r).2 = some "KeyError: playlistsToInclude" := by
    simp only [mainRun, h]
  have h1 : Effect.clear radioId ∈ (mainRun cfg cat r).1 := by
    simp only [mainRun, h]
    exact generateRadio_clears_radio _ _ _ _ _ _
  exact ⟨h2, h1⟩

/-- Witness for C3's amended theorem at a concrete configuration without the
`playlistsToInclude` key. -/
theorem missing_playlists_key_fails_after_radio_witness :
    (mainRun ⟨5, 10, 5, false, false, false, 1, none, false, false, false⟩
        ⟨none, fun _ => none, fun _ => [], [], [], fun _ => none, fun _ => [], fun _ => []⟩
        ⟨fun _ => 0, fun _ => 0, 0, 0⟩).2 = some "KeyError: playlistsToInclude" ∧
      Effect.clear radioId ∈
        (mainRun ⟨5, 10, 5, false, false, false, 1, none, false, false, false⟩
          ⟨none, fun _ => none, fun _ => [], [], [], fun _ => none, fun _ => [], fun _ => []⟩
          ⟨fun _ => 0, fun _ => 0, 0, 0⟩).1 :=
  missing_playlists_key_fails_after_radio
    ⟨5, 10, 5, false, false, false, 1, none, false, false, false⟩
    ⟨none, fun _ => none, fun _ => [], [], [], fun _ => none, fun _ => [], fun _ => []⟩
    ⟨fun _ => 0, fun _ => 0, 0, 0⟩ rfl

/-- C3 counterexample: with the key missing the run still mutates a playlist
before failing — the trace already holds the Radio clear when the KeyError
is raised, so the failure is not "at startup, before any component runs or
any playlist is mutated". -/
theorem missing_playlists_key_mutation_before_failure_cex :
    mainRun ⟨5, 10, 5, false, false, false, 1, none, false, false, false⟩
        ⟨none, fun _ => none, fun _ => [], [], [], fun _ => none, fun _ => [], fun _ => []⟩
        ⟨fun _ => 0, fun _ => 0, 0, 0⟩ =
      ([Effect.clear radioId], some "KeyError: playlistsToInclude") ∧
      (mainRun ⟨5, 10, 5, false, false, false, 1, none, false, false, false⟩
        ⟨none, fun _ => none, fun _ => [], [], [], fun _ => none, fun _ => [], fun _ => []⟩
        ⟨fun _ => 0, fun _ => 0, 0, 0⟩).1 ≠ [] := by
  decide

/-- C2 counterexample: an end-to-end run with `playlistsToInclude = []` and
no Liked Songs selects nothing, and the Master Assembler then performs no
`clearPlaylist` on the Master at all (the whole trace is the Radio clear),
contradicting the claimed "clear with no subsequent add". -/
theorem empty_selection_no_clear_cex :
    mainRun ⟨5, 10, 5, false, false, false, 1, some [], false, false, false⟩
        ⟨none, fun _ => none, fun _ => [], [], [], fun _ => none, fun _ => [], fun _ => []⟩
        ⟨fun _ => 0, fun _ => 0, 0, 0⟩ = ([Effect.clear radioId], none) ∧
      Effect.clear masterId ∉
        (mainRun ⟨5, 10, 5, false, false, false, 1, some [], false, false, false⟩
          ⟨none, fun _ => none, fun _ => [], [], [], fun _ => none, fun _ => [], fun _ => []⟩
          ⟨fun _ => 0, fun _ => 0, 0, 0⟩).1 := by
  decide

end PlaylistRX
